import Mathlib

/-!
Verification of the node-inventory script (get_slurm_conf.py).

The script probes the machine (lscpu, /proc/meminfo, /proc/cpuinfo, ip,
nvidia-smi, hostname) and renders two configuration fragments: a slurm.conf
node line and a gres.conf resource file.  We shallowly embed every extractor,
builder and renderer over `List Char` (Python byte strings), with a probe
result modelled as `Option (List Char)` where `none` means the external
command raised an exception.  The decorator `return_on_error` of the source is
modelled by matching on an `Except Unit` body: an `error` is what a raised
Python exception becomes, and the decorator turns it into the default value.

Python semantics we rely on (CPython 2, the language of the script):
  * `str.split(sep)` keeps empty pieces; `str.split()` splits on whitespace
    runs and drops empty pieces; `str.splitlines()` splits on newlines and
    does not yield a final empty piece for a trailing newline.  Probe output
    on the target platform uses only \n line ends, so we model `splitlines`
    with \n alone.
  * `\s` of the `re` module is the six characters space, \t, \n, \r, \f, \v.
  * `/` on two ints floors (Python 2), modelled by `Int.fdiv` and `Nat.div`.
-/

/-- The whitespace class of the Python `re` module and of `str.strip`. -/
def pyIsSpace (c : Char) : Bool :=
  c = ' ' || c = '\t' || c = '\n' || c = '\x0d' || c = '\x0c' || c = '\x0b'

/-- Python `\w` on a non-unicode pattern: ASCII letters, digits, underscore. -/
def pyIsW (c : Char) : Bool :=
  c.isAlpha || c.isDigit || c = '_'

/-- `re.sub("[\s]+", " ", s)`: collapse every whitespace run to one space.
The boolean argument records whether the previous character was whitespace. -/
def collapseWS : Bool → List Char → List Char
  | _, [] => []
  | prev, c :: rest =>
    if pyIsSpace c then
      if prev then collapseWS true rest else ' ' :: collapseWS true rest
    else c :: collapseWS false rest

/-- Python `str.strip()`: drop leading and trailing whitespace. -/
def pyStrip (l : List Char) : List Char :=
  ((l.dropWhile pyIsSpace).reverse.dropWhile pyIsSpace).reverse

/-- Source `oneline`: `re.sub("[\s]+", " ", s).strip()`. -/
def oneline (l : List Char) : List Char :=
  pyStrip (collapseWS false l)

/-- Python `s.split(sep)` for a one-character separator: every occurrence
splits, empty pieces are kept, the result is never empty. -/
def pySplit (sep : Char) : List Char → List (List Char)
  | [] => [[]]
  | c :: rest =>
    match pySplit sep rest with
    | [] => [[]]
    | h :: t => if c = sep then [] :: h :: t else (c :: h) :: t

/-- Python `s.splitlines()` restricted to \n line ends: split on every
newline and drop the final empty piece a trailing newline would create. -/
def pySplitlines (l : List Char) : List (List Char) :=
  match (pySplit '\n' l).getLast? with
  | some last => if last = [] then (pySplit '\n' l).dropLast else pySplit '\n' l
  | none => pySplit '\n' l

/-- State machine for `pySplitWS`: `cur` is the word being accumulated, in
reverse. -/
def pySplitWSAux (cur : List Char) : List Char → List (List Char)
  | [] => if cur = [] then [] else [cur.reverse]
  | c :: rest =>
    if pyIsSpace c then
      if cur = [] then pySplitWSAux [] rest else cur.reverse :: pySplitWSAux [] rest
    else pySplitWSAux (c :: cur) rest

/-- Python `s.split()` with no argument: split on whitespace runs, no empty
pieces. -/
def pySplitWS (l : List Char) : List (List Char) :=
  pySplitWSAux [] l

/-- Python `sep.join(xs)`. -/
def pyJoin (sep : List Char) : List (List Char) → List Char
  | [] => []
  | [x] => x
  | x :: y :: rest => x ++ sep ++ pyJoin sep (y :: rest)

/-- Python `s.startswith(p)`. -/
def pyStartsWith (p : List Char) (l : List Char) : Bool :=
  p.isPrefixOf l

/-- Python `s.endswith(p)`. -/
def pyEndsWith (p : List Char) (l : List Char) : Bool :=
  p.reverse.isPrefixOf l.reverse

/-- Fuel-driven scan for `pyRemove`; the fuel (initially the input length)
dominates the number of steps, so the zero-fuel branch is unreachable. -/
def pyRemoveAux (pat : List Char) : Nat → List Char → List Char
  | _, [] => []
  | 0, l => l
  | fuel + 1, c :: rest =>
    if pat ≠ [] ∧ pat.isPrefixOf (c :: rest) then
      pyRemoveAux pat fuel ((c :: rest).drop pat.length)
    else c :: pyRemoveAux pat fuel rest

/-- Python `s.replace(pat, "")` (also `re.sub(pat, "", s)` for a literal
pattern): remove every non-overlapping occurrence, scanning left to right. -/
def pyRemove (pat : List Char) (l : List Char) : List Char :=
  pyRemoveAux pat l.length l

/-- Value of a nonempty decimal digit string. -/
def digitsToNat (l : List Char) : Nat :=
  l.foldl (fun a c => a * 10 + (c.toNat - 48)) 0

/-- Python `int(s)` on a string: strip whitespace, optional sign, then a
nonempty run of digits and nothing else; anything else raises (here `none`). -/
def pyInt (s : List Char) : Option Int :=
  match pyStrip s with
  | [] => none
  | c :: rest =>
    if c = '-' then
      if rest ≠ [] ∧ rest.all Char.isDigit then some (-(digitsToNat rest : Int)) else none
    else if c = '+' then
      if rest ≠ [] ∧ rest.all Char.isDigit then some (digitsToNat rest : Int) else none
    else if (c :: rest).all Char.isDigit then some (digitsToNat (c :: rest) : Int)
    else none

/-- The two brace characters of Python format templates. -/
def lbrace : Char := Char.ofNat 123

/-- See `lbrace`. -/
def rbrace : Char := Char.ofNat 125

/-- Scanner for `pyFormat`: outside a brace pair (`none`) characters are
copied; inside (`some key`) they accumulate the key until the closing brace,
whereupon the looked-up value is spliced verbatim (`str.format` does not
rescan substituted values).  The templates of the script are well formed, so
the unterminated-brace branch (Python raises) returns nothing. -/
def pyFormatAux (lookup : List Char → List Char) : Option (List Char) → List Char → List Char
  | none, [] => []
  | none, c :: rest =>
    if c = lbrace then pyFormatAux lookup (some []) rest
    else c :: pyFormatAux lookup none rest
  | some _, [] => []
  | some key, c :: rest =>
    if c = rbrace then lookup key ++ pyFormatAux lookup none rest
    else pyFormatAux lookup (some (key ++ [c])) rest

/-- Python `template.format(**data)` for the simple templates of the script:
each brace pair holds a bare key, the value is spliced verbatim. -/
def pyFormat (lookup : List Char → List Char) (l : List Char) : List Char :=
  pyFormatAux lookup none l

/-- Decimal rendering of an integer, as Python `str`/`format` do. -/
def intRepr (i : Int) : List Char :=
  (toString i).toList

/-- A Python value that is either an int or a string: `get_mem_info` returns
an int on the no-match path and a string from its decorator default. -/
inductive PyVal where
  | int : Int → PyVal
  | str : List Char → PyVal
deriving DecidableEq

/-- How `str.format` renders a `PyVal`. -/
def PyVal.render : PyVal → List Char
  | .int i => intRepr i
  | .str s => s

/-- Match a literal at the head of the input, returning the remainder. -/
def matchLit (lit l : List Char) : Option (List Char) :=
  if lit.isPrefixOf l then some (l.drop lit.length) else none

/-- The tail `\d+[.]\d+\w+` of the Intel model pattern.  A maximal digit run
followed by a dot; greedy matching of `\d+\w+` after the dot succeeds exactly
when the next character is a digit and the one after it is a word character
(digits are word characters, so backtracking one digit into `\w+` is covered
by that condition). -/
def intelTail (l : List Char) : Bool :=
  match l.takeWhile Char.isDigit with
  | [] => false
  | _ :: _ =>
    match l.dropWhile Char.isDigit with
    | '.' :: a :: b :: _ => a.isDigit && pyIsW b
    | _ => false

/-- `re.match("Intel\(R\) ([\w]+)\(\w+\) ([\w\d-]+\s?[\w\d]*) @ \d+[.]\d+\w+", m)`,
returning the two captured groups.  Each greedy `\w+` run is maximal because
the character after it in the pattern is outside the class; for the second
group, `[\w\d-]+` is maximal for the same reason, and after it the greedy
`\s?` first tries to consume one whitespace character (then `[\w\d]*` is again
a maximal run before the literal " @ ") and otherwise matches empty, in which
case `[\w\d]*` can only match empty as well. -/
def intelMatch (l : List Char) : Option (List Char × List Char) :=
  match matchLit ("Intel(R) ").toList l with
  | none => none
  | some r1 =>
    match r1.takeWhile pyIsW with
    | [] => none
    | fam =>
      match (r1.dropWhile pyIsW) with
      | c :: r2 =>
        if c = '(' then
          match r2.takeWhile pyIsW with
          | [] => none
          | _ =>
            match matchLit (") ").toList (r2.dropWhile pyIsW) with
            | none => none
            | some r4 =>
              match r4.takeWhile (fun d => pyIsW d || d = '-') with
              | [] => none
              | grpA =>
                let r5 := r4.dropWhile (fun d => pyIsW d || d = '-')
                let branch1 : Option (List Char) :=
                  match r5 with
                  | w :: r6 =>
                    if pyIsSpace w then
                      match matchLit (" @ ").toList (r6.dropWhile pyIsW) with
                      | some r7 =>
                        if intelTail r7 then some (grpA ++ w :: r6.takeWhile pyIsW)
                        else none
                      | none => none
                    else none
                  | [] => none
                let branch2 : Option (List Char) :=
                  match matchLit (" @ ").toList r5 with
                  | some r7 => if intelTail r7 then some grpA else none
                  | none => none
                match branch1 <|> branch2 with
                | some grp2 => some (fam, grp2)
                | none => none
        else none
      | [] => none

/-- Source `get_short_intel_model_name`: strip the text "CPU", collapse the
line, and if the Intel pattern matches rebuild the tag as
family-number with a redundant trailing " 0" removed and inner spaces
deleted; otherwise return the cleaned line unchanged. -/
def get_short_intel_model_name (model : List Char) : List Char :=
  let m1 := pyRemove ("CPU").toList model
  let m2 := oneline m1
  match intelMatch m2 with
  | none => m2
  | some (family, number0) =>
    let number1 := if pyEndsWith (" 0").toList number0
      then number0.take (number0.length - 2) else number0
    let number2 := pyRemove ([' ']) number1
    family ++ '-' :: number2

/-- Body of source `get_cpu_model` on the probe text: scan the lines for the
first one starting with "model name"; take the second colon-separated piece
(an `IndexError`, modelled as `Except.error`, if the line has no colon); hand
a piece starting with " Intel" to the shortener, return any other piece
verbatim.  A scan that finds no such line returns Python `None` (`none`). -/
def get_cpu_model_lines : List (List Char) → Except Unit (Option (List Char))
  | [] => .ok none
  | line :: rest =>
    if pyStartsWith ("model name").toList line then
      match (pySplit ':' line).get? 1 with
      | none => .error ()
      | some model =>
        if pyStartsWith (" Intel").toList model then
          .ok (some (get_short_intel_model_name model))
        else .ok (some model)
    else get_cpu_model_lines rest

/-- Source `get_cpu_model`: the body above under `@return_on_error("UNKNOWN")`.
The probe argument is the raw text of /proc/cpuinfo, `none` when reading it
raised.  The result is the Python return value: a string, or Python `None`
when no "model name" line exists. -/
def get_cpu_model (probe : Option (List Char)) : Option (List Char) :=
  match probe with
  | none => some ("UNKNOWN").toList
  | some text =>
    match get_cpu_model_lines (pySplitlines text) with
    | .error _ => some ("UNKNOWN").toList
    | .ok v => v

/-- The generator `int(row[col_id]) for row in data`: a missing column or an
unparseable field raises (`error`). -/
def parseCol (col_id : Nat) : List (List (List Char)) → Except Unit (List Int)
  | [] => .ok []
  | row :: rest =>
    match row.get? col_id with
    | none => .error ()
    | some field =>
      match pyInt field with
      | none => .error ()
      | some v =>
        match parseCol col_id rest with
        | .error e => .error e
        | .ok vs => .ok (v :: vs)

/-- Source `max_in_col`: `max(int(row[col_id]) for row in data)`.  A raise in
the generator escapes, and `max` of an empty sequence raises ValueError. -/
def max_in_col (data : List (List (List Char))) (col_id : Nat) : Except Unit Int :=
  match parseCol col_id data with
  | .error e => .error e
  | .ok [] => .error ()
  | .ok (v :: vs) => .ok (vs.foldl max v)

/-- The cpus/cores/sockets dictionary of `get_cpu_info`. -/
structure CpuInfo where
  cpus : Int
  cores : Int
  sockets : Int
deriving DecidableEq

/-- The comma-split non-comment rows of the lscpu probe text. -/
def cpuRows (text : List Char) : List (List (List Char)) :=
  ((pySplitlines text).filter (fun line => !pyStartsWith ("#").toList line)).map
    (pySplit ',')

/-- Source `get_cpu_info` under `@return_on_error({"cpus":1,"cores":1,"sockets":1})`:
split the probe text into non-comment rows and take each maximum column value
plus one; any raised error (including a failed probe, `none`) falls back to
all ones. -/
def get_cpu_info (probe : Option (List Char)) : CpuInfo :=
  match probe with
  | none => ⟨1, 1, 1⟩
  | some text =>
    match max_in_col (cpuRows text) 0, max_in_col (cpuRows text) 1,
        max_in_col (cpuRows text) 2 with
    | .ok a, .ok b, .ok c => ⟨a + 1, b + 1, c + 1⟩
    | _, _, _ => ⟨1, 1, 1⟩

/-- Floor of the base-two logarithm, via fuel (the fuel bounds the number of
halvings, so starting it at `n` itself is always enough). -/
def natLog2Aux : Nat → Nat → Nat
  | 0, _ => 0
  | fuel + 1, n => if n ≤ 1 then 0 else natLog2Aux fuel (n / 2) + 1

/-- See `natLog2Aux`. -/
def natLog2 (n : Nat) : Nat :=
  natLog2Aux n n

/-- Round a natural number to 53 significant bits, ties to even: the value a
positive integer or integer-scaled product takes when stored in an IEEE
binary64 (the scaling by a power of two does not change the significand). -/
def roundNE53 (N : Nat) : Nat :=
  let k := natLog2 N
  if k ≤ 52 then N
  else
    let s := k - 52
    let q := N / 2 ^ s
    let r := N % 2 ^ s
    let half := 2 ^ (s - 1)
    if half < r then (q + 1) * 2 ^ s
    else if r < half then q * 2 ^ s
    else (if q % 2 = 0 then q else q + 1) * 2 ^ s

/-- Numerator of the binary64 value of `1 - 0.05` over `2 ^ 53`: the
subtraction of the two doubles rounds to exactly the double nearest 0.95. -/
def float095Num : Nat := 8556839292003942

/-- `int(n * (1 - 0.05))` computed as CPython does: `n` is converted to a
binary64 (rounded to nearest even), multiplied by the binary64 of 0.95 with
one more rounding, and truncated toward zero.  Total and exact for every
operand below the binary64 overflow range. -/
def pyFloatReserve (n : Nat) : Nat :=
  roundNE53 (roundNE53 n * float095Num) / 2 ^ 53

/-- `re.match("MemTotal:\s+(\d+) kB", text)`: anchored at the start of the
text; returns `int(m.group(1))`.  Both greedy runs are maximal because the
following pattern character is outside the class. -/
def memMatch (text : List Char) : Option Nat :=
  match matchLit ("MemTotal:").toList text with
  | none => none
  | some r1 =>
    match r1.takeWhile pyIsSpace with
    | [] => none
    | _ =>
      match (r1.dropWhile pyIsSpace).takeWhile Char.isDigit with
      | [] => none
      | ds =>
        match matchLit (" kB").toList ((r1.dropWhile pyIsSpace).dropWhile Char.isDigit) with
        | none => none
        | some _ => some (digitsToNat ds)

/-- Source `get_mem_info` under `@return_on_error("0")`: the decorator
default is the STRING "0", while the explicit no-match path returns the INT 0;
a match converts kB to MiB by integer division and applies the five percent
reservation in float arithmetic. -/
def get_mem_info (probe : Option (List Char)) : PyVal :=
  match probe with
  | none => .str ("0").toList
  | some text =>
    match memMatch text with
    | none => .int 0
    | some kB => .int (pyFloatReserve (kB / 1024))

/-- The loop of source `get_ipaddr` over its interface list.  A probe raise
(`none`) propagates out of the loop (`error`); empty output moves to the next
interface; the first non-empty output ends the loop with its fourth
whitespace token cut at the first slash (a missing fourth token raises). -/
def ipaddr_loop (probe : List Char → Option (List Char)) :
    List (List Char) → Except Unit (List Char)
  | [] => .ok ("0.0.0.0").toList
  | interface :: rest =>
    match probe interface with
    | none => .error ()
    | some text =>
      if text = [] then ipaddr_loop probe rest
      else
        match (pySplitWS text).get? 3 with
        | none => .error ()
        | some tok => .ok ((pySplit '/' tok).headD [])

/-- Source `get_ipaddr` under `@return_on_error("0.0.0.0")`: run the loop on
the hardcoded interface list; a raise inside becomes the default. -/
def get_ipaddr (probe : List Char → Option (List Char)) : List Char :=
  match ipaddr_loop probe [("eno1").toList, ("eno2").toList] with
  | .error _ => ("0.0.0.0").toList
  | .ok v => v

/-- Source `get_gpu_names`: one name per output line with every space
character removed; a raised `CalledProcessError` or `OSError` (probe `none`)
yields the empty list. -/
def get_gpu_names (probe : Option (List Char)) : List (List Char) :=
  match probe with
  | none => []
  | some text => (pySplitlines text).map (pyRemove [' '])

/-- The per-device lookup used by `get_gres_conf`. -/
def gres_conf_lookup (hostname gpu_name : List Char) (n : Nat) :
    List Char → List Char := fun key =>
  if key = ("hostname").toList then hostname
  else if key = ("type").toList then gpu_name
  else if key = ("file").toList then ("/dev/nvidia").toList ++ intRepr n
  else []

/-- Source `get_gres_conf`, with the probe results (hostname, gpu list)
as arguments: one line per device, `\n`-joined, the Type field appended to
the template only under `include_gpu_types`. -/
def get_gres_conf (include_gpu_types : Bool) (hostname : List Char)
    (gpus : List (List Char)) : List Char :=
  let template := ("NodeName={hostname} Name=gpu File={file}").toList ++
    (if include_gpu_types then (" Type={type}").toList else [])
  pyJoin ['\n'] (gpus.enum.map (fun p =>
    pyFormat (gres_conf_lookup hostname p.2 p.1) template))

/-- Python string comparison (byte-wise lexicographic), as `sorted` uses. -/
def lexLe : List Char → List Char → Bool
  | [], _ => true
  | _ :: _, [] => false
  | a :: as, b :: bs =>
    if a.toNat < b.toNat then true
    else if b.toNat < a.toNat then false
    else lexLe as bs

/-- Insert into a sorted list, keeping it sorted. -/
def insertSorted (x : List Char) : List (List Char) → List (List Char)
  | [] => [x]
  | y :: ys => if lexLe x y then x :: y :: ys else y :: insertSorted x ys

/-- Python `sorted` on a list of strings (insertion sort; Python guarantees
only the ordering, which is all the callers depend on). -/
def pySorted (l : List (List Char)) : List (List Char) :=
  l.foldr insertSorted []

/-- Accumulator form of `groupCounts`: `x` is the current run value and `n`
its length so far. -/
def groupCountsAux (x : List Char) (n : Nat) : List (List Char) → List (List Char × Nat)
  | [] => [(x, n)]
  | y :: rest =>
    if y = x then groupCountsAux x (n + 1) rest
    else (x, n) :: groupCountsAux y 1 rest

/-- `itertools.groupby` with the group lengths taken, as `get_gres_desc`
consumes it: each maximal run of equal consecutive elements becomes the
element paired with the run length. -/
def groupCounts : List (List Char) → List (List Char × Nat)
  | [] => []
  | x :: rest => groupCountsAux x 1 rest

/-- Source `get_gres_desc`, with the gpu list as argument: under
`include_gpu_types` one token per distinct name of the sorted list with its
multiplicity, otherwise a single total-count token when any device exists;
no tokens yield the empty string, else the comma-join prefixed "Gres=". -/
def get_gres_desc (include_gpu_types : Bool) (gpus : List (List Char)) :
    List Char :=
  let tokens : List (List Char) :=
    if include_gpu_types then
      (groupCounts (pySorted gpus)).map (fun g =>
        ("gpu:").toList ++ g.1 ++ ':' :: intRepr (g.2 : Int))
    else if gpus.length > 0 then [("gpu:").toList ++ intRepr (gpus.length : Int)]
    else []
  if tokens.length = 0 then [] else ("Gres=").toList ++ pyJoin [','] tokens

/-- The contract CPython gives for `list(set(xs))` on strings: some
enumeration of the distinct elements, in an order the language does not
specify. -/
def IsDedup (dedup : List (List Char) → List (List Char)) : Prop :=
  ∀ xs, (dedup xs).Nodup ∧ ∀ x, x ∈ dedup xs ↔ x ∈ xs

/-- Source `get_features`, with the extracted cpu model and gpu names as
arguments and `list(set(...))` as an explicit function argument: the
comma-join of the model tag and the de-duplicated gpu names. -/
def get_features (dedup : List (List Char) → List (List Char))
    (cpu_model : List Char) (gpus : List (List Char)) : List Char :=
  pyJoin [','] (cpu_model :: dedup gpus)

/-- The derived cpu fields of the `data` dict in `get_slurm_conf`
(Python 2 `/` on ints is floor division). -/
structure NodeCpuFields where
  cpus : Int
  threads_per_core : Int
  cores_per_socket : Int
  num_sockets : Int
deriving DecidableEq

/-- See `NodeCpuFields`. -/
def node_cpu_fields (cpu_info : CpuInfo) (include_hyperthreads : Bool) :
    NodeCpuFields where
  cpus := if include_hyperthreads then cpu_info.cpus else cpu_info.cores
  threads_per_core := cpu_info.cpus.fdiv cpu_info.cores
  cores_per_socket := cpu_info.cores.fdiv cpu_info.sockets
  num_sockets := cpu_info.sockets

/-- The multi-line template literal of `get_slurm_conf`, verbatim. -/
def rawNodeTemplate : List Char :=
  ("        NodeName={hostname}\n        NodeAddr={ipaddr}\n        CPUs={cpus}\n        ThreadsPerCore={threads_per_core}\n        CoresPerSocket={cores_per_socket}\n        Sockets={num_sockets}\n        RealMemory={memory}\n        Feature={feature}\n        {gres}\n        State=UNKNOWN\n    ").toList

/-- The `data` dict of `get_slurm_conf` as a lookup for `str.format`. -/
def node_data_lookup (hostname ipaddr : List Char) (f : NodeCpuFields)
    (memory : PyVal) (feature gres : List Char) : List Char → List Char :=
  fun key =>
    if key = ("hostname").toList then hostname
    else if key = ("ipaddr").toList then ipaddr
    else if key = ("cpus").toList then intRepr f.cpus
    else if key = ("threads_per_core").toList then intRepr f.threads_per_core
    else if key = ("cores_per_socket").toList then intRepr f.cores_per_socket
    else if key = ("num_sockets").toList then intRepr f.num_sockets
    else if key = ("memory").toList then memory.render
    else if key = ("feature").toList then feature
    else if key = ("gres").toList then gres
    else []

/-- The rendering step of `get_slurm_conf`: the template is collapsed by
`oneline` BEFORE formatting, then the data values are spliced in. -/
def render_node_line (hostname ipaddr : List Char) (cpu_info : CpuInfo)
    (include_hyperthreads : Bool) (memory : PyVal) (feature gres : List Char) :
    List Char :=
  pyFormat
    (node_data_lookup hostname ipaddr (node_cpu_fields cpu_info include_hyperthreads)
      memory feature gres)
    (oneline rawNodeTemplate)

/-- Source `get_slurm_conf`, with every probe result already extracted
(hostname, ip, cpu topology, memory, cpu model, gpu names) and the set
enumeration order of `get_features` explicit. -/
def get_slurm_conf (include_gpu_types include_hyperthreads : Bool)
    (hostname ipaddr : List Char) (cpu_info : CpuInfo) (memory : PyVal)
    (cpu_model : List Char) (dedup : List (List Char) → List (List Char))
    (gpus : List (List Char)) : List Char :=
  render_node_line hostname ipaddr cpu_info include_hyperthreads memory
    (get_features dedup cpu_model gpus) (get_gres_desc include_gpu_types gpus)

set_option maxRecDepth 10000

/-- Does a string contain two consecutive spaces? -/
def hasDoubleSpace : List Char → Bool
  | c :: d :: rest => (c = ' ' && d = ' ') || hasDoubleSpace (d :: rest)
  | _ => false

/-- The reading of the ip extractor in which the scan skips over failed
probes and returns the address of the FIRST interface whose probe yields
non-empty output.  Stated from the specification wording, to be compared
with `get_ipaddr`, whose loop aborts on the first raised probe. -/
def ipaddrFirstNonEmpty (probe : List Char → Option (List Char)) :
    List (List Char) → List Char
  | [] => ("0.0.0.0").toList
  | interface :: rest =>
    match probe interface with
    | some text =>
      if text = [] then ipaddrFirstNonEmpty probe rest
      else (pySplit '/' ((pySplitWS text).getD 3 [])).headD []
    | none => ipaddrFirstNonEmpty probe rest

/-- The probe of the C8 counterexample: the first interface raises, the
second yields good output. -/
def cexProbe : List Char → Option (List Char) := fun i =>
  if i = ("eno1").toList then none
  else some (("2: eno2    inet 10.0.0.7/24 brd 10.0.0.255").toList)

/-- One line of an lscpu topology probe text: a comment or a data row of
three fields. -/
inductive TopoLine where
  | comment : List Char → TopoLine
  | row : List Char → List Char → List Char → TopoLine

/-- The text of one topology line. -/
def TopoLine.encode : TopoLine → List Char
  | .comment s => '#' :: s
  | .row a b c => a ++ ',' :: b ++ ',' :: c

/-- A topology probe text built from lines. -/
def encodeTopo (ls : List TopoLine) : List Char :=
  pyJoin ['\n'] (ls.map TopoLine.encode)

/-- Well-formedness of one topology line: comments hold no newline, data
fields are nonempty digit strings. -/
def TopoLine.WF : TopoLine → Prop
  | .comment s => '\n' ∉ s
  | .row a b c =>
    (a ≠ [] ∧ ∀ d ∈ a, d.isDigit = true) ∧
    (b ≠ [] ∧ ∀ d ∈ b, d.isDigit = true) ∧
    (c ≠ [] ∧ ∀ d ∈ c, d.isDigit = true)

/-- The field triple of a data row. -/
def TopoLine.rowFields : TopoLine → Option (List Char × List Char × List Char)
  | .comment _ => none
  | .row a b c => some (a, b, c)

/-- The data rows of a topology text, as field triples. -/
def topoRows (ls : List TopoLine) : List (List Char × List Char × List Char) :=
  ls.filterMap TopoLine.rowFields

/-- The parsed values of the data rows of a topology text. -/
def topoVals (ls : List TopoLine) : List (Int × Int × Int) :=
  (topoRows ls).map fun t =>
    ((digitsToNat t.1 : Int), (digitsToNat t.2.1 : Int), (digitsToNat t.2.2 : Int))

/-- Maximum of a nonempty list of integers, head-seeded like Python `max`. -/
def listMax (v : Int) (rest : List Int) : Int :=
  rest.foldl max v

/-! ### Generic lemmas about the Python string primitives -/

theorem pySplit_of_not_mem {sep : Char} : ∀ {x : List Char}, sep ∉ x →
    pySplit sep x = [x]
  | [], _ => rfl
  | c :: rest, h => by
    have hc : c ≠ sep := fun e => h (e ▸ List.mem_cons_self c rest)
    have ih := pySplit_of_not_mem (fun m => h (List.mem_cons_of_mem c m))
    simp [pySplit, ih, hc]

theorem pySplit_append {sep : Char} : ∀ {x : List Char} (y : List Char), sep ∉ x →
    pySplit sep (x ++ sep :: y) = x :: pySplit sep y
  | [], y, _ => by
    cases h : pySplit sep y with
    | nil => simp [pySplit, h]
    | cons a t => simp [pySplit, h]
  | c :: rest, y, h => by
    have hc : c ≠ sep := fun e => h (e ▸ List.mem_cons_self c rest)
    have ih := pySplit_append (x := rest) y (fun m => h (List.mem_cons_of_mem c m))
    simp only [List.cons_append, pySplit, List.append_eq]
    rw [ih]
    simp [hc]

theorem pySplit_ne_nil (sep : Char) : ∀ (l : List Char), pySplit sep l ≠ []
  | [] => by simp [pySplit]
  | c :: rest => by
    have := pySplit_ne_nil sep rest
    simp only [pySplit]
    cases h : pySplit sep rest with
    | nil => simp
    | cons a t => by_cases hc : c = sep <;> simp [hc]

theorem pyJoin_split {sep : Char} : ∀ {ls : List (List Char)}, ls ≠ [] →
    (∀ l ∈ ls, sep ∉ l) → pySplit sep (pyJoin [sep] ls) = ls
  | [], h, _ => absurd rfl h
  | [x], _, hf => by
    simpa [pyJoin] using pySplit_of_not_mem (hf x (List.mem_singleton.mpr rfl))
  | x :: y :: rest, _, hf => by
    have ih := @pyJoin_split _ (y :: rest) (by simp)
      (fun l m => hf l (List.mem_cons_of_mem x m))
    have hx : sep ∉ x := hf x (List.mem_cons_self _ _)
    calc pySplit sep (pyJoin [sep] (x :: y :: rest))
        = pySplit sep (x ++ sep :: pyJoin [sep] (y :: rest)) := by
          simp [pyJoin]
      _ = x :: pySplit sep (pyJoin [sep] (y :: rest)) := pySplit_append _ hx
      _ = x :: y :: rest := by rw [ih]

theorem pySplitlines_join {ls : List (List Char)} (hne : ls ≠ [])
    (hf : ∀ l ∈ ls, '\n' ∉ l) (hlast : ls.getLast? ≠ some []) :
    pySplitlines (pyJoin ['\n'] ls) = ls := by
  unfold pySplitlines
  rw [pyJoin_split hne hf]
  cases h : ls.getLast? with
  | none => rfl
  | some last =>
    have hl : last ≠ [] := fun e => hlast (by rw [h, e])
    simp [hl]

theorem pySplitlines_single {l : List Char} (hne : l ≠ []) (hf : '\n' ∉ l) :
    pySplitlines l = [l] := by
  have := @pySplitlines_join [l] (by simp) (by simpa using hf)
    (by simpa using hne)
  simpa [pyJoin] using this

theorem takeWhile_append_of_all {p : Char → Bool} :
    ∀ {a : List Char} (b : List Char), (∀ c ∈ a, p c = true) →
    (a ++ b).takeWhile p = a ++ b.takeWhile p
  | [], b, _ => rfl
  | c :: rest, b, h => by
    have hc : p c = true := h c (List.mem_cons_self _ _)
    have ih := takeWhile_append_of_all (a := rest) b
      (fun d m => h d (List.mem_cons_of_mem c m))
    simp [List.takeWhile, hc, ih]

theorem dropWhile_append_of_all {p : Char → Bool} :
    ∀ {a : List Char} (b : List Char), (∀ c ∈ a, p c = true) →
    (a ++ b).dropWhile p = b.dropWhile p
  | [], b, _ => rfl
  | c :: rest, b, h => by
    have hc : p c = true := h c (List.mem_cons_self _ _)
    have ih := dropWhile_append_of_all (a := rest) b
      (fun d m => h d (List.mem_cons_of_mem c m))
    simp [List.dropWhile, hc, ih]

theorem takeWhile_eq_nil_of_head {p : Char → Bool} {c : Char} (rest : List Char)
    (hc : p c = false) : (c :: rest).takeWhile p = [] := by
  simp [List.takeWhile, hc]

theorem dropWhile_eq_self_of_head {p : Char → Bool} {c : Char} (rest : List Char)
    (hc : p c = false) : (c :: rest).dropWhile p = c :: rest := by
  simp [List.dropWhile, hc]

theorem dropWhile_eq_self_of_all {p : Char → Bool} :
    ∀ {l : List Char}, (∀ c ∈ l, p c = false) → l.dropWhile p = l
  | [], _ => rfl
  | c :: rest, h => by
    simp [List.dropWhile, h c (List.mem_cons_self _ _)]

theorem takeWhile_eq_self_of_all {p : Char → Bool} :
    ∀ {l : List Char}, (∀ c ∈ l, p c = true) → l.takeWhile p = l
  | [], _ => rfl
  | c :: rest, h => by
    have ih := takeWhile_eq_self_of_all (l := rest)
      (fun d m => h d (List.mem_cons_of_mem c m))
    simp [List.takeWhile, h c (List.mem_cons_self _ _), ih]

theorem pyStrip_of_no_space {l : List Char} (h : ∀ c ∈ l, pyIsSpace c = false) :
    pyStrip l = l := by
  unfold pyStrip
  rw [dropWhile_eq_self_of_all h, dropWhile_eq_self_of_all
    (fun c m => h c (List.mem_reverse.mp m)), List.reverse_reverse]

theorem isPrefixOf_append_self : ∀ (p rest : List Char), p.isPrefixOf (p ++ rest) = true
  | [], _ => by simp [List.isPrefixOf]
  | c :: cs, rest => by
    simp [List.isPrefixOf, isPrefixOf_append_self cs rest]

/-- A digit is not whitespace. -/
theorem isDigit_not_space {c : Char} (h : c.isDigit = true) : pyIsSpace c = false := by
  revert h
  unfold pyIsSpace Char.isDigit
  by_cases h1 : c = ' '
  · subst h1; decide
  by_cases h2 : c = '\t'
  · subst h2; decide
  by_cases h3 : c = '\n'
  · subst h3; decide
  by_cases h4 : c = '\x0d'
  · subst h4; decide
  by_cases h5 : c = '\x0c'
  · subst h5; decide
  by_cases h6 : c = '\x0b'
  · subst h6; decide
  intro _
  simp [h1, h2, h3, h4, h5, h6]

/-- A digit is distinct from any concrete character that is not a digit. -/
theorem ne_of_isDigit {c d : Char} (h : c.isDigit = true) (hd : d.isDigit = false) :
    c ≠ d := by
  rintro rfl
  rw [h] at hd
  exact Bool.noConfusion hd

theorem pyInt_digits {ds : List Char} (hne : ds ≠ []) (hd : ∀ c ∈ ds, c.isDigit = true) :
    pyInt ds = some (digitsToNat ds : Int) := by
  unfold pyInt
  rw [pyStrip_of_no_space (fun c m => isDigit_not_space (hd c m))]
  cases ds with
  | nil => exact absurd rfl hne
  | cons c rest =>
    have hc : c.isDigit = true := hd c (List.mem_cons_self _ _)
    have h1 : c ≠ '-' := ne_of_isDigit hc (by decide)
    have h2 : c ≠ '+' := ne_of_isDigit hc (by decide)
    have h3 : (c :: rest).all Char.isDigit = true := by
      rw [List.all_eq_true]; exact hd
    simp [h1, h2, h3]

/-- Python 2 floor division of nonnegative ints is natural division. -/
theorem fdiv_natCast (m n : Nat) : Int.fdiv (m : Int) (n : Int) = ((m / n : Nat) : Int) := by
  cases m with
  | zero => show Int.fdiv (Int.ofNat 0) _ = _; simp [Int.fdiv]
  | succ m => rfl

set_option maxHeartbeats 2000000

/-! ### Claim theorems -/

/-- C1 (amended): the node-line renderer emits the fixed field order
NodeName, NodeAddr, CPUs, ThreadsPerCore, CoresPerSocket, Sockets,
RealMemory, Feature, Gres, State=UNKNOWN, with the Gres token spliced
between two single spaces.  Because `oneline` collapses the template BEFORE
formatting, an empty Gres token leaves those two spaces adjacent, so the
line then contains a double space before State=UNKNOWN; only a non-empty
Gres token yields single-space separation. -/
theorem claim_C1_render (hostname ipaddr : List Char) (ci : CpuInfo) (ht : Bool)
    (memory : PyVal) (feature gres : List Char) :
    render_node_line hostname ipaddr ci ht memory feature gres =
      ("NodeName=").toList ++ (hostname ++ ((" NodeAddr=").toList ++ (ipaddr ++
      ((" CPUs=").toList ++ (intRepr (node_cpu_fields ci ht).cpus ++
      ((" ThreadsPerCore=").toList ++ (intRepr (node_cpu_fields ci ht).threads_per_core ++
      ((" CoresPerSocket=").toList ++ (intRepr (node_cpu_fields ci ht).cores_per_socket ++
      ((" Sockets=").toList ++ (intRepr (node_cpu_fields ci ht).num_sockets ++
      ((" RealMemory=").toList ++ (memory.render ++
      ((" Feature=").toList ++ (feature ++
      (' ' :: (gres ++ (" State=UNKNOWN").toList))))))))))))))))) := rfl

/-- C1, counterexample to the claim as stated: at the end-to-end scenario of
the specification (hostname node01, ip 10.0.0.5, topology 32/16/2, memory 60,
feature Xeon-Gold-6142, empty gres, hyperthreads off) the rendered line
carries TWO spaces between the Feature field and State=UNKNOWN, hence is not
the single-spaced line the claim asserts, and does contain two consecutive
spaces. -/
theorem claim_C1_counterexample :
    render_node_line (("node01").toList) (("10.0.0.5").toList) ⟨32, 16, 2⟩ false
        (.int 60) (("Xeon-Gold-6142").toList) [] =
      ("NodeName=node01 NodeAddr=10.0.0.5 CPUs=16 ThreadsPerCore=2 CoresPerSocket=8 Sockets=2 RealMemory=60 Feature=Xeon-Gold-6142  State=UNKNOWN").toList ∧
    hasDoubleSpace (render_node_line (("node01").toList) (("10.0.0.5").toList)
        ⟨32, 16, 2⟩ false (.int 60) (("Xeon-Gold-6142").toList) []) = true ∧
    render_node_line (("node01").toList) (("10.0.0.5").toList) ⟨32, 16, 2⟩ false
        (.int 60) (("Xeon-Gold-6142").toList) [] ≠
      ("NodeName=node01 NodeAddr=10.0.0.5 CPUs=16 ThreadsPerCore=2 CoresPerSocket=8 Sockets=2 RealMemory=60 Feature=Xeon-Gold-6142 State=UNKNOWN").toList := by
  refine ⟨by decide, by decide, by decide⟩

/-- C7: for a topology with cpu count at least core count at least socket
count at least one, the builder reports cores as CPUs unless hyperthreads
are included, floor-divides cpus by cores and cores by sockets (equal to
natural-number division here), and passes the socket count through. -/
theorem claim_C7_cpu_fields (c k s : Int) (h1 : k ≤ c) (h2 : s ≤ k) (h3 : 1 ≤ s)
    (ht : Bool) :
    (node_cpu_fields ⟨c, k, s⟩ ht).cpus = (if ht then c else k) ∧
    (node_cpu_fields ⟨c, k, s⟩ ht).threads_per_core = ((c.toNat / k.toNat : Nat) : Int) ∧
    (node_cpu_fields ⟨c, k, s⟩ ht).cores_per_socket = ((k.toNat / s.toNat : Nat) : Int) ∧
    (node_cpu_fields ⟨c, k, s⟩ ht).num_sockets = s := by
  obtain ⟨cn, rfl⟩ : ∃ n : Nat, c = (n : Int) :=
    ⟨c.toNat, (Int.toNat_of_nonneg (by omega)).symm⟩
  obtain ⟨kn, rfl⟩ : ∃ n : Nat, k = (n : Int) :=
    ⟨k.toNat, (Int.toNat_of_nonneg (by omega)).symm⟩
  obtain ⟨sn, rfl⟩ : ∃ n : Nat, s = (n : Int) :=
    ⟨s.toNat, (Int.toNat_of_nonneg (by omega)).symm⟩
  refine ⟨rfl, ?_, ?_, rfl⟩
  · exact fdiv_natCast cn kn
  · exact fdiv_natCast kn sn

/-- C7 witness: at the 16-cpu 8-core 2-socket example, two threads per core
and four cores per socket, sixteen CPUs reported only with hyperthreads. -/
theorem claim_C7_witness :
    (node_cpu_fields ⟨16, 8, 2⟩ false).cpus = 8 ∧
    (node_cpu_fields ⟨16, 8, 2⟩ false).threads_per_core = 2 ∧
    (node_cpu_fields ⟨16, 8, 2⟩ false).cores_per_socket = 4 ∧
    (node_cpu_fields ⟨16, 8, 2⟩ false).num_sockets = 2 := by
  have h := claim_C7_cpu_fields 16 8 2 (by decide) (by decide) (by decide) false
  exact ⟨h.1.trans (by decide), h.2.1.trans (by decide),
    h.2.2.1.trans (by decide), h.2.2.2.trans (by decide)⟩

/-- C3, counterexample to the claim as stated: `list(set(...))` only promises
SOME duplicate-free enumeration; two enumeration orders both satisfying that
contract (first-occurrence order and its reverse) give the feature aggregator
different output on the same probe results, so byte-identical output across
invocations is not guaranteed by the code, which joins the set enumeration
without sorting. -/
theorem claim_C3_counterexample :
    IsDedup (fun xs => xs.dedup) ∧ IsDedup (fun xs => xs.dedup.reverse) ∧
    get_features (fun xs => xs.dedup) (("UNKNOWN").toList)
        [("A").toList, ("B").toList] ≠
      get_features (fun xs => xs.dedup.reverse) (("UNKNOWN").toList)
        [("A").toList, ("B").toList] :=
  ⟨fun xs => ⟨xs.nodup_dedup, fun _ => List.mem_dedup⟩,
   fun xs => ⟨List.nodup_reverse.mpr xs.nodup_dedup,
     fun x => by simp [List.mem_reverse, List.mem_dedup]⟩,
   by decide⟩

/-- C3 (amended): relative to any one fixed enumeration function satisfying
the set contract, the aggregator is a pure function: the feature tag is the
comma-join of the cpu model tag and a duplicate-free enumeration of exactly
the accelerator names, and an empty accelerator list yields the model tag
alone.  The enumeration ORDER is however unspecified by the language and the
code does not sort it, so byte-identical output is only guaranteed while the
set enumeration of the hosting interpreter stays fixed. -/
theorem claim_C3_features (dedup : List (List Char) → List (List Char))
    (hd : IsDedup dedup) (cpu_model : List Char) (gpus : List (List Char)) :
    get_features dedup cpu_model gpus = pyJoin [','] (cpu_model :: dedup gpus) ∧
    (dedup gpus).Nodup ∧ (∀ x, x ∈ dedup gpus ↔ x ∈ gpus) ∧
    (gpus = [] → get_features dedup cpu_model gpus = cpu_model) := by
  refine ⟨rfl, (hd gpus).1, (hd gpus).2, fun he => ?_⟩
  subst he
  have hnil : dedup [] = [] :=
    List.eq_nil_iff_forall_not_mem.mpr fun x hx =>
      List.not_mem_nil x (((hd []).2 x).mp hx)
  unfold get_features
  rw [hnil]
  rfl

/-- C3 witness: the amended theorem applied to the first-occurrence
enumeration, the UNKNOWN model tag and no accelerators. -/
theorem claim_C3_witness :
    get_features (fun xs => xs.dedup) (("UNKNOWN").toList) [] = ("UNKNOWN").toList :=
  (claim_C3_features (fun xs => xs.dedup)
    (fun xs => ⟨xs.nodup_dedup, fun _ => List.mem_dedup⟩)
    (("UNKNOWN").toList) []).2.2.2 rfl

/-- Removing every occurrence of a single character is filtering it out. -/
theorem pyRemoveAux_single :
    ∀ (c0 : Char) (l : List Char) (fuel : Nat), l.length ≤ fuel →
      pyRemoveAux [c0] fuel l = l.filter (fun c => !(c == c0))
  | _, [], fuel, _ => by cases fuel <;> rfl
  | _, c :: rest, 0, h => by simp at h
  | c0, c :: rest, fuel + 1, h => by
    have hr : rest.length ≤ fuel := by
      simpa using Nat.le_of_succ_le_succ (by simpa using h)
    by_cases hc : c = c0
    · subst hc
      rw [pyRemoveAux, if_pos ⟨by simp, by simp [List.isPrefixOf]⟩]
      simp only [List.length_cons, List.length_nil, List.drop_succ_cons, List.drop_zero]
      rw [pyRemoveAux_single c rest fuel hr]
      simp
    · have hpre : ([c0].isPrefixOf (c :: rest)) = false := by
        simp [List.isPrefixOf, fun e => hc (e : c = c0), Ne.symm hc]
      rw [pyRemoveAux, if_neg (fun hand => by rw [hpre] at hand; exact Bool.noConfusion hand.2)]
      rw [pyRemoveAux_single c0 rest fuel hr]
      simp [hc]

/-- See `pyRemoveAux_single`. -/
theorem pyRemove_single (c0 : Char) (l : List Char) :
    pyRemove [c0] l = l.filter (fun c => !(c == c0)) :=
  pyRemoveAux_single c0 l l.length (Nat.le_refl _)

/-- C10: on a probe text made of newline-free reported lines (the last one
non-empty), the gpu name extractor returns one name per reported line in
report order, each name being its line with every space character removed
(removal is exactly filtering out spaces); empty middle lines stay as
empty-string names, and a failed probe yields the empty list. -/
theorem claim_C10_gpu_names :
    (∀ ls : List (List Char), ls ≠ [] → (∀ l ∈ ls, '\n' ∉ l) →
      ls.getLast? ≠ some [] →
      get_gpu_names (some (pyJoin ['\n'] ls)) = ls.map (pyRemove [' '])) ∧
    (∀ l : List Char, pyRemove [' '] l = l.filter (fun c => !(c == ' '))) ∧
    get_gpu_names (some (("Tesla V100\n\nTesla P100").toList)) =
      [("TeslaV100").toList, [], ("TeslaP100").toList] ∧
    get_gpu_names none = [] := by
  refine ⟨fun ls hne hnl hlast => ?_, fun l => pyRemove_single ' ' l, by decide, rfl⟩
  show List.map (pyRemove [' ']) (pySplitlines (pyJoin ['\n'] ls)) = _
  rw [pySplitlines_join hne hnl hlast]

/-- C10 witness: the universal part applied to a single reported line with an
inner space. -/
theorem claim_C10_witness :
    get_gpu_names (some (pyJoin ['\n'] [("Tesla V100").toList])) = [("TeslaV100").toList] := by
  rw [claim_C10_gpu_names.1 [("Tesla V100").toList] (by decide) (by decide) (by decide)]
  decide

/-- One typed line of the resource file, in reduction shape. -/
theorem gres_line_typed (hostname gpu_name : List Char) (n : Nat) :
    pyFormat (gres_conf_lookup hostname gpu_name n)
      (("NodeName={hostname} Name=gpu File={file}").toList ++ (" Type={type}").toList) =
    ("NodeName=").toList ++ (hostname ++ ((" Name=gpu File=").toList ++
      ((("/dev/nvidia").toList ++ intRepr (n : Int)) ++
      ((" Type=").toList ++ (gpu_name ++ []))))) := rfl

/-- One untyped line of the resource file, in reduction shape. -/
theorem gres_line_untyped (hostname gpu_name : List Char) (n : Nat) :
    pyFormat (gres_conf_lookup hostname gpu_name n)
      (("NodeName={hostname} Name=gpu File={file}").toList ++ []) =
    ("NodeName=").toList ++ (hostname ++ ((" Name=gpu File=").toList ++
      ((("/dev/nvidia").toList ++ intRepr (n : Int)) ++ []))) := rfl

/-- C9: the resource-file renderer emits one line per accelerator, in probe
report order, the line for 0-based index n being NodeName, the fixed
Name=gpu, the device file /dev/nvidia n, and a trailing Type field exactly
when gpu types are included; the lines are newline-joined with no trailing
newline (the join of the empty inventory being the empty string), and the
number of lines equals the inventory length. -/
theorem claim_C9_gres_conf (include_gpu_types : Bool) (hostname : List Char)
    (gpus : List (List Char)) :
    get_gres_conf include_gpu_types hostname gpus =
      pyJoin ['\n'] (gpus.enum.map fun p =>
        ("NodeName=").toList ++ hostname ++ (" Name=gpu File=").toList ++
          ("/dev/nvidia").toList ++ intRepr (p.1 : Int) ++
          (if include_gpu_types then (" Type=").toList ++ p.2 else [])) ∧
    (gpus.enum.map fun p =>
        ("NodeName=").toList ++ hostname ++ (" Name=gpu File=").toList ++
          ("/dev/nvidia").toList ++ intRepr (p.1 : Int) ++
          (if include_gpu_types then (" Type=").toList ++ p.2 else [])).length =
      gpus.length ∧
    get_gres_conf include_gpu_types hostname [] = [] := by
  refine ⟨?_, by simp, ?_⟩
  · unfold get_gres_conf
    cases include_gpu_types with
    | true =>
      simp only [if_true]
      refine congrArg (pyJoin ['\n']) (List.map_congr_left fun p _ => ?_)
      rw [gres_line_typed hostname p.2 p.1]
      simp [List.append_assoc]
    | false =>
      simp only [if_false, Bool.false_eq_true, List.append_nil]
      refine congrArg (pyJoin ['\n']) (List.map_congr_left fun p _ => ?_)
      have h := gres_line_untyped hostname p.2 p.1
      rw [List.append_nil] at h
      rw [h]
      simp [List.append_assoc]
  · cases include_gpu_types <;> rfl

/-- C4, counterexample to the claim as stated: on a non-Intel model line the
extractor returns the text after the colon VERBATIM, leading space included,
not the trimmed string the claim asserts. -/
theorem claim_C4_counterexample :
    get_cpu_model (some (("model name\t: AMD EPYC 7742").toList)) =
      some ((" AMD EPYC 7742").toList) ∧
    some ((" AMD EPYC 7742").toList) ≠ some ((("AMD EPYC 7742").toList)) := by
  refine ⟨by decide, by decide⟩

/-- C4 (amended): a failed probe yields UNKNOWN; a model description that
begins with the Intel marker goes through the shortener, which on the
documented pattern yields the compact family-number tag with the redundant
trailing " 0" stripped and inner spaces removed (the E5-2680 example); any
other model description is returned exactly as split after the first colon,
untrimmed; a "model name" line without a colon raises an IndexError, which
the decorator turns into UNKNOWN. -/
theorem claim_C4_cpu_model :
    get_cpu_model none = some (("UNKNOWN").toList) ∧
    get_cpu_model (some (("model name\t: Intel(R) Xeon(R) CPU E5-2680 0 @ 2.40GHz").toList)) =
      some (("Xeon-E5-2680").toList) ∧
    (∀ m : List Char, pyStartsWith ((" Intel").toList) m = false → ':' ∉ m → '\n' ∉ m →
      get_cpu_model (some (("model name:").toList ++ m)) = some m) ∧
    get_cpu_model (some (("model name without colon").toList)) = some (("UNKNOWN").toList) := by
  refine ⟨rfl, by decide, fun m h1 h2 h3 => ?_, by decide⟩
  have hsplit : ("model name:").toList ++ m = ("model name").toList ++ (':' :: m) := by
    rw [show ("model name:").toList = ("model name").toList ++ [':'] from by decide,
      List.append_assoc]
    rfl
  have hne : ("model name:").toList ++ m ≠ [] := by
    rw [hsplit]; simp
  have hnl : '\n' ∉ ("model name:").toList ++ m := by
    intro hmem
    rcases List.mem_append.mp hmem with h | h
    · revert h; decide
    · exact h3 h
  show (match get_cpu_model_lines (pySplitlines (("model name:").toList ++ m)) with
    | .error _ => some (("UNKNOWN").toList)
    | .ok v => v) = some m
  rw [pySplitlines_single hne hnl]
  show (match get_cpu_model_lines [("model name:").toList ++ m] with
    | .error _ => some (("UNKNOWN").toList)
    | .ok v => v) = some m
  unfold get_cpu_model_lines
  rw [hsplit]
  have hstart : pyStartsWith (("model name").toList) (("model name").toList ++ (':' :: m)) = true :=
    isPrefixOf_append_self _ _
  rw [hstart]
  simp only [if_true]
  rw [pySplit_append (x := ("model name").toList) m (by decide),
    pySplit_of_not_mem h2]
  simp only [List.get?]
  show (match (if pyStartsWith ((" Intel").toList) m = true
      then (Except.ok (some (get_short_intel_model_name m)) : Except Unit (Option (List Char)))
      else Except.ok (some m)) with
    | .error _ => some (("UNKNOWN").toList)
    | .ok v => v) = some m
  rw [h1]
  simp

/-- C4 witness: the general non-Intel branch of the amended theorem applied
to a concrete AMD description. -/
theorem claim_C4_witness :
    get_cpu_model (some (("model name:").toList ++ (" AMD EPYC 7601").toList)) =
      some ((" AMD EPYC 7601").toList) :=
  claim_C4_cpu_model.2.2.1 ((" AMD EPYC 7601").toList) (by decide) (by decide) (by decide)
theorem takeWhile_append_eq_nil {p : Char → Bool} {a : List Char} (b : List Char)
    (ha : a ≠ []) (hhead : ∀ c, a.head? = some c → p c = false) :
    (a ++ b).takeWhile p = [] := by
  obtain ⟨c, a', rfl⟩ := List.exists_cons_of_ne_nil ha
  simp [List.cons_append, List.takeWhile, hhead c rfl]

theorem dropWhile_append_eq_self {p : Char → Bool} {a : List Char} (b : List Char)
    (ha : a ≠ []) (hhead : ∀ c, a.head? = some c → p c = false) :
    (a ++ b).dropWhile p = a ++ b := by
  obtain ⟨c, a', rfl⟩ := List.exists_cons_of_ne_nil ha
  simp [List.cons_append, List.dropWhile, hhead c rfl]

theorem memMatch_structured (ws ds rest : List Char) (hws : ws ≠ [])
    (hwsall : ∀ c ∈ ws, pyIsSpace c = true) (hds : ds ≠ [])
    (hdsall : ∀ c ∈ ds, c.isDigit = true) :
    memMatch (("MemTotal:").toList ++ (ws ++ (ds ++ ((" kB").toList ++ rest)))) =
      some (digitsToNat ds) := by
  have hdshead : ∀ c, ds.head? = some c → pyIsSpace c = false := fun c hc =>
    isDigit_not_space (hdsall c (List.mem_of_mem_head? hc))
  have hdshead2 : ∀ c, ds.head? = some c → Char.isDigit c = true := fun c hc =>
    hdsall c (List.mem_of_mem_head? hc)
  unfold memMatch matchLit
  rw [isPrefixOf_append_self]
  simp only [if_true, List.drop_left]
  rw [takeWhile_append_of_all _ hwsall,
    takeWhile_append_eq_nil _ hds hdshead, List.append_nil]
  rw [dropWhile_append_of_all _ hwsall,
    dropWhile_append_eq_self _ hds hdshead]
  rw [takeWhile_append_of_all _ hdsall,
    takeWhile_append_eq_nil rest (by decide)
      (fun c hc => by cases hc; decide), List.append_nil]
  rw [dropWhile_append_of_all _ hdsall,
    dropWhile_append_eq_self rest (by decide)
      (fun c hc => by cases hc; decide)]
  rw [isPrefixOf_append_self]
  simp only [if_true, List.drop_left]

/-- C5, counterexample to the claim as stated: a probe text CONTAINING a
well-formed MemTotal line that is not at the very start is rejected, because
`re.match` anchors at the start of the whole text; the extractor then
returns the INTEGER zero, which is neither the converted value nor the
textual fallback "0" the claim names. -/
theorem claim_C5_counterexample :
    get_mem_info (some (("SwapTotal: 0 kB\nMemTotal: 16777216 kB").toList)) =
      PyVal.int 0 ∧
    PyVal.int 0 ≠ PyVal.int 15564 ∧
    PyVal.int 0 ≠ PyVal.str (("0").toList) := by
  refine ⟨by decide, by decide, by decide⟩

/-- C5 (amended): the MemTotal pattern is matched at the START of the probe
text only.  A text beginning with "MemTotal:", whitespace, digits, " kB"
yields the integer obtained from the kB value by integer division by 1024
followed by the five percent reservation computed in binary64 float
arithmetic and truncated, 16777216 kB giving 15564; a failed probe yields
the STRING "0" from the decorator; any other text yields the INTEGER 0
(which still renders as "0" in the node line). -/
theorem claim_C5_mem_info :
    get_mem_info none = PyVal.str (("0").toList) ∧
    (∀ ws ds rest : List Char, ws ≠ [] → (∀ c ∈ ws, pyIsSpace c = true) →
      ds ≠ [] → (∀ c ∈ ds, c.isDigit = true) →
      get_mem_info (some (("MemTotal:").toList ++ (ws ++ (ds ++ ((" kB").toList ++ rest))))) =
        PyVal.int (pyFloatReserve (digitsToNat ds / 1024))) ∧
    (∀ text : List Char, memMatch text = none → get_mem_info (some text) = PyVal.int 0) ∧
    get_mem_info (some (("MemTotal:   16777216 kB").toList)) = PyVal.int 15564 ∧
    (PyVal.int (pyFloatReserve (16777216 / 1024))).render = ("15564").toList := by
  refine ⟨rfl, fun ws ds rest hws hwsall hds hdsall => ?_, fun text h => ?_, by decide, by decide⟩
  · show (match memMatch (("MemTotal:").toList ++ (ws ++ (ds ++ ((" kB").toList ++ rest)))) with
      | none => PyVal.int 0
      | some kB => PyVal.int (pyFloatReserve (kB / 1024))) = _
    rw [memMatch_structured ws ds rest hws hwsall hds hdsall]
  · show (match memMatch text with
      | none => PyVal.int 0
      | some kB => PyVal.int (pyFloatReserve (kB / 1024))) = PyVal.int 0
    rw [h]

/-- C5 witness: the structured branch of the amended theorem at the
specification example, three spaces and 16777216 kB, evaluating to 15564. -/
theorem claim_C5_witness :
    get_mem_info (some (("MemTotal:").toList ++ (("   ").toList ++ (("16777216").toList ++
      ((" kB").toList ++ []))))) = PyVal.int 15564 := by
  rw [claim_C5_mem_info.2.1 (("   ").toList) (("16777216").toList) []
    (by decide) (by decide) (by decide) (by decide)]
  decide

/-- Interfaces whose probes return empty output are skipped by the loop. -/
theorem ipaddr_loop_skip (probe : List Char → Option (List Char)) :
    ∀ (pre l : List (List Char)), (∀ j ∈ pre, probe j = some []) →
      ipaddr_loop probe (pre ++ l) = ipaddr_loop probe l
  | [], l, _ => rfl
  | j :: pre', l, h => by
    have hj : probe j = some [] := h j (List.mem_cons_self _ _)
    have ih := ipaddr_loop_skip probe pre' l
      (fun x m => h x (List.mem_cons_of_mem j m))
    simp only [List.cons_append, ipaddr_loop]
    rw [hj]
    simpa using ih

/-- C8, counterexample to the claim as stated: the probe of the first
interface raises while the second interface yields good output; the first
interface whose probe yields non-empty output is thus the second one, whose
address portion is 10.0.0.7 (as the specification-reading scan returns), but
the extractor returns the fallback 0.0.0.0, because the raise aborts the
whole loop before the second interface is tried. -/
theorem claim_C8_counterexample :
    cexProbe (("eno1").toList) = none ∧
    cexProbe (("eno2").toList) =
      some (("2: eno2    inet 10.0.0.7/24 brd 10.0.0.255").toList) ∧
    ipaddrFirstNonEmpty cexProbe [("eno1").toList, ("eno2").toList] =
      ("10.0.0.7").toList ∧
    get_ipaddr cexProbe = ("0.0.0.0").toList ∧
    ("0.0.0.0").toList ≠ (("10.0.0.7").toList) := by
  refine ⟨by decide, by decide, by decide, by decide, by decide⟩

/-- C8 (amended): interfaces whose probe yields EMPTY output are skipped; if,
after any such skips, the next interface raises, the raise escapes the loop
and the decorator returns 0.0.0.0 without trying later interfaces; if
instead that interface yields non-empty output the loop ends with its fourth
whitespace token cut at the first slash (fewer than four tokens raise, also
yielding 0.0.0.0); if every interface yields empty output the loop returns
0.0.0.0; and `get_ipaddr` is the loop run on the fixed list eno1, eno2 with
raises mapped to 0.0.0.0. -/
theorem claim_C8_ipaddr :
    (∀ (probe : List Char → Option (List Char)) (pre : List (List Char))
        (interface : List Char) (rest : List (List Char)),
      (∀ j ∈ pre, probe j = some []) → probe interface = none →
        ipaddr_loop probe (pre ++ interface :: rest) = .error ()) ∧
    (∀ (probe : List Char → Option (List Char)) (pre : List (List Char))
        (interface : List Char) (rest : List (List Char)) (t tok : List Char),
      (∀ j ∈ pre, probe j = some []) → probe interface = some t → t ≠ [] →
      (pySplitWS t).get? 3 = some tok →
        ipaddr_loop probe (pre ++ interface :: rest) =
          .ok ((pySplit '/' tok).headD [])) ∧
    (∀ (probe : List Char → Option (List Char)) (pre : List (List Char))
        (interface : List Char) (rest : List (List Char)) (t : List Char),
      (∀ j ∈ pre, probe j = some []) → probe interface = some t → t ≠ [] →
      (pySplitWS t).get? 3 = none →
        ipaddr_loop probe (pre ++ interface :: rest) = .error ()) ∧
    (∀ (probe : List Char → Option (List Char)) (interfaces : List (List Char)),
      (∀ j ∈ interfaces, probe j = some []) →
        ipaddr_loop probe interfaces = .ok (("0.0.0.0").toList)) ∧
    (∀ (probe : List Char → Option (List Char)) (v : List Char),
      ipaddr_loop probe [("eno1").toList, ("eno2").toList] = .ok v →
        get_ipaddr probe = v) ∧
    (∀ (probe : List Char → Option (List Char)),
      ipaddr_loop probe [("eno1").toList, ("eno2").toList] = .error () →
        get_ipaddr probe = ("0.0.0.0").toList) := by
  refine ⟨fun probe pre interface rest hpre h1 => ?_,
    fun probe pre interface rest t tok hpre h1 h2 h3 => ?_,
    fun probe pre interface rest t hpre h1 h2 h3 => ?_,
    fun probe interfaces hall => ?_,
    fun probe v h => ?_, fun probe h => ?_⟩
  · rw [ipaddr_loop_skip probe pre _ hpre]
    simp only [ipaddr_loop]
    rw [h1]
  · rw [ipaddr_loop_skip probe pre _ hpre]
    simp only [ipaddr_loop]
    rw [h1]
    simp only [if_neg h2]
    rw [h3]
  · rw [ipaddr_loop_skip probe pre _ hpre]
    simp only [ipaddr_loop]
    rw [h1]
    simp only [if_neg h2]
    rw [h3]
  · have := ipaddr_loop_skip probe interfaces [] hall
    rw [List.append_nil] at this
    rw [this]
    rfl
  · show (match ipaddr_loop probe [("eno1").toList, ("eno2").toList] with
      | .error _ => ("0.0.0.0").toList
      | .ok v => v) = v
    rw [h]
  · show (match ipaddr_loop probe [("eno1").toList, ("eno2").toList] with
      | .error _ => ("0.0.0.0").toList
      | .ok v => v) = ("0.0.0.0").toList
    rw [h]

/-- C8 witness: the skip-then-return branch applied to a probe whose first
interface yields empty output and whose second yields a good line. -/
theorem claim_C8_witness :
    ipaddr_loop
      (fun i => if i = ("eno1").toList then some []
        else some (("2: eno2    inet 10.0.0.7/24 brd").toList))
      ([("eno1").toList] ++ ("eno2").toList :: []) = .ok (("10.0.0.7").toList) := by
  rw [claim_C8_ipaddr.2.1
    (fun i => if i = ("eno1").toList then some []
      else some (("2: eno2    inet 10.0.0.7/24 brd").toList))
    [("eno1").toList] (("eno2").toList) [] (("2: eno2    inet 10.0.0.7/24 brd").toList)
    (("10.0.0.7/24").toList) (by decide) (by decide) (by decide) (by decide)]
  rfl
theorem lexLe_total : ∀ a b : List Char, lexLe a b = true ∨ lexLe b a = true
  | [], _ => Or.inl rfl
  | _ :: _, [] => Or.inr rfl
  | x :: xs, y :: ys => by
    simp only [lexLe]
    rcases Nat.lt_trichotomy x.toNat y.toNat with h | h | h
    · left; simp [h]
    · have h1 : ¬ x.toNat < y.toNat := by omega
      have h2 : ¬ y.toNat < x.toNat := by omega
      rcases lexLe_total xs ys with ih | ih
      · left; simp [h1, h2, ih]
      · right; simp [h1, h2, ih]
    · right; simp [h]

theorem lexLe_antisymm : ∀ a b : List Char, lexLe a b = true → lexLe b a = true → a = b
  | [], [], _, _ => rfl
  | [], _ :: _, _, h2 => by simp [lexLe] at h2
  | _ :: _, [], h1, _ => by simp [lexLe] at h1
  | x :: xs, y :: ys, h1, h2 => by
    simp only [lexLe] at h1 h2
    by_cases hxy : x.toNat < y.toNat
    · have : ¬ y.toNat < x.toNat := by omega
      simp [hxy, this] at h2
    · by_cases hyx : y.toNat < x.toNat
      · simp [hxy, hyx] at h1
      · have hx : x = y := by
          have hn : x.toNat = y.toNat := by omega
          exact Char.eq_of_val_eq (UInt32.eq_of_toBitVec_eq (BitVec.eq_of_toNat_eq hn))
        simp [hxy, hyx] at h1 h2
        rw [hx, lexLe_antisymm xs ys h1 h2]

theorem lexLe_trans : ∀ a b c : List Char, lexLe a b = true → lexLe b c = true →
    lexLe a c = true
  | [], _, _, _, _ => rfl
  | _ :: _, [], _, h1, _ => by simp [lexLe] at h1
  | _ :: _, _ :: _, [], _, h2 => by simp [lexLe] at h2
  | x :: xs, y :: ys, z :: zs, h1, h2 => by
    simp only [lexLe] at h1 h2 ⊢
    by_cases hxy : x.toNat < y.toNat <;> by_cases hyz : y.toNat < z.toNat
    · simp [show x.toNat < z.toNat by omega]
    · by_cases hzy : z.toNat < y.toNat
      · simp [hyz, hzy] at h2
      · have hy : y.toNat = z.toNat := by omega
        simp [show x.toNat < z.toNat by omega]
    · by_cases hyx : y.toNat < x.toNat
      · simp [hxy, hyx] at h1
      · have hx : x.toNat = y.toNat := by omega
        simp [show x.toNat < z.toNat by omega]
    · by_cases hyx : y.toNat < x.toNat
      · simp [hxy, hyx] at h1
      · by_cases hzy : z.toNat < y.toNat
        · simp [hyz, hzy] at h2
        · have hxz1 : ¬ x.toNat < z.toNat := by omega
          have hxz2 : ¬ z.toNat < x.toNat := by omega
          simp [hxy, hyx] at h1
          simp [hyz, hzy] at h2
          simp [hxz1, hxz2, lexLe_trans xs ys zs h1 h2]
theorem insertSorted_perm (x : List Char) :
    ∀ l : List (List Char), (insertSorted x l).Perm (x :: l)
  | [] => List.Perm.refl _
  | y :: ys => by
    simp only [insertSorted]
    by_cases h : lexLe x y = true
    · simp [h]
    · simp only [h, if_false]
      exact ((insertSorted_perm x ys).cons y).trans (List.Perm.swap x y ys)

theorem mem_insertSorted {a x : List Char} {l : List (List Char)} :
    a ∈ insertSorted x l ↔ a = x ∨ a ∈ l := by
  rw [(insertSorted_perm x l).mem_iff]
  simp

theorem insertSorted_pairwise (x : List Char) :
    ∀ l : List (List Char), l.Pairwise (fun a b => lexLe a b = true) →
      (insertSorted x l).Pairwise (fun a b => lexLe a b = true)
  | [], _ => List.pairwise_singleton _ _
  | y :: ys, h => by
    rcases List.pairwise_cons.mp h with ⟨hy, hys⟩
    simp only [insertSorted]
    by_cases hxy : lexLe x y = true
    · simp only [hxy, if_true]
      refine List.pairwise_cons.mpr ⟨?_, h⟩
      intro b hb
      rcases List.mem_cons.mp hb with rfl | hb
      · exact hxy
      · exact lexLe_trans x y b hxy (hy b hb)
    · simp only [hxy, if_false]
      refine List.pairwise_cons.mpr ⟨?_, insertSorted_pairwise x ys hys⟩
      intro b hb
      rcases mem_insertSorted.mp hb with rfl | hb
      · rcases lexLe_total b y with h' | h'
        · exact absurd h' hxy
        · exact h'
      · exact hy b hb

theorem pySorted_perm : ∀ l : List (List Char), (pySorted l).Perm l
  | [] => List.Perm.refl _
  | x :: xs => by
    show (insertSorted x (pySorted xs)).Perm (x :: xs)
    exact (insertSorted_perm x (pySorted xs)).trans ((pySorted_perm xs).cons x)

theorem pySorted_pairwise : ∀ l : List (List Char),
    (pySorted l).Pairwise (fun a b => lexLe a b = true)
  | [] => List.Pairwise.nil
  | x :: xs => insertSorted_pairwise x (pySorted xs) (pySorted_pairwise xs)
theorem groupCountsAux_ne_nil (x : List Char) (n : Nat) :
    ∀ l : List (List Char), groupCountsAux x n l ≠ []
  | [] => by simp [groupCountsAux]
  | y :: rest => by
    simp only [groupCountsAux]
    by_cases h : y = x
    · simpa [h] using groupCountsAux_ne_nil x (n + 1) rest
    · simp [h]

theorem groupCountsAux_mem_fst {a : List Char} :
    ∀ (l : List (List Char)) (x : List Char) (n : Nat),
      a ∈ (groupCountsAux x n l).map Prod.fst ↔ (a = x ∨ a ∈ l)
  | [], x, n => by simp [groupCountsAux]
  | y :: rest, x, n => by
    simp only [groupCountsAux]
    by_cases h : y = x
    · subst h
      rw [if_pos rfl, groupCountsAux_mem_fst rest y (n + 1)]
      simp only [List.mem_cons]
      tauto
    · rw [if_neg h]
      simp only [List.map_cons, List.mem_cons]
      rw [groupCountsAux_mem_fst rest y 1]

/-- In a sorted list a head distinct from the next element never reappears. -/
theorem sorted_head_not_mem {x y : List Char} {rest : List (List Char)}
    (hp : (x :: y :: rest).Pairwise (fun a b => lexLe a b = true)) (hne : y ≠ x) :
    x ∉ y :: rest := by
  rcases List.pairwise_cons.mp hp with ⟨hx, hp'⟩
  rcases List.pairwise_cons.mp hp' with ⟨hy, _⟩
  intro hmem
  rcases List.mem_cons.mp hmem with rfl | hmem
  · exact hne rfl
  · have h1 : lexLe x y = true := hx y (List.mem_cons_self _ _)
    have h2 : lexLe y x = true := hy x hmem
    exact hne (lexLe_antisymm y x h2 h1)
theorem groupCountsAux_counts :
    ∀ (l : List (List Char)) (x : List Char) (n : Nat),
      (x :: l).Pairwise (fun a b => lexLe a b = true) →
      ∀ p ∈ groupCountsAux x n l,
        p.2 = (if p.1 = x then n + l.count x else l.count p.1)
  | [], x, n, _, p, hp => by
    simp only [groupCountsAux, List.mem_singleton] at hp
    subst hp
    simp
  | y :: rest, x, n, hp, p, hmem => by
    simp only [groupCountsAux] at hmem
    by_cases h : y = x
    · subst h
      rw [if_pos rfl] at hmem
      have hp' : (y :: rest).Pairwise (fun a b => lexLe a b = true) :=
        (List.pairwise_cons.mp hp).2
      have ih := groupCountsAux_counts rest y (n + 1) hp' p hmem
      by_cases hpy : p.1 = y
      · rw [if_pos hpy] at ih
        rw [if_pos hpy, ih, List.count_cons_self]
        omega
      · rw [if_neg hpy] at ih
        rw [if_neg hpy, ih, List.count_cons_of_ne hpy]
    · rw [if_neg h] at hmem
      have hxnm : x ∉ y :: rest := sorted_head_not_mem hp h
      rcases List.mem_cons.mp hmem with rfl | hmem
      · rw [if_pos rfl, List.count_eq_zero_of_not_mem hxnm]
        omega
      · have hp' : (y :: rest).Pairwise (fun a b => lexLe a b = true) :=
          (List.pairwise_cons.mp hp).2
        have ih := groupCountsAux_counts rest y 1 hp' p hmem
        have hpm : p.1 ∈ y :: rest := by
          have : p.1 ∈ (groupCountsAux y 1 rest).map Prod.fst :=
            List.mem_map.mpr ⟨p, hmem, rfl⟩
          rcases (groupCountsAux_mem_fst _ _ _).mp this with rfl | hh
          · exact List.mem_cons_self _ _
          · exact List.mem_cons_of_mem y hh
        have hpx : p.1 ≠ x := fun e => hxnm (e ▸ hpm)
        rw [if_neg hpx]
        by_cases hpy : p.1 = y
        · rw [if_pos hpy] at ih
          rw [hpy, List.count_cons_self]
          omega
        · rw [if_neg hpy] at ih
          rw [List.count_cons_of_ne hpy, ih]

theorem groupCountsAux_fst_pairwise :
    ∀ (l : List (List Char)) (x : List Char) (n : Nat),
      (x :: l).Pairwise (fun a b => lexLe a b = true) →
      ((groupCountsAux x n l).map Prod.fst).Pairwise
        (fun a b => lexLe a b = true ∧ a ≠ b)
  | [], x, n, _ => by simp [groupCountsAux]
  | y :: rest, x, n, hp => by
    simp only [groupCountsAux]
    by_cases h : y = x
    · subst h
      rw [if_pos rfl]
      exact groupCountsAux_fst_pairwise rest y (n + 1) (List.pairwise_cons.mp hp).2
    · rw [if_neg h]
      have hxnm : x ∉ y :: rest := sorted_head_not_mem hp h
      have hx : ∀ b ∈ y :: rest, lexLe x b = true := (List.pairwise_cons.mp hp).1
      simp only [List.map_cons]
      refine List.pairwise_cons.mpr ⟨?_, groupCountsAux_fst_pairwise rest y 1
        (List.pairwise_cons.mp hp).2⟩
      intro b hb
      have hbm : b ∈ y :: rest := by
        rcases (groupCountsAux_mem_fst _ _ _).mp hb with rfl | hh
        · exact List.mem_cons_self _ _
        · exact List.mem_cons_of_mem y hh
      exact ⟨hx b hbm, fun e => hxnm (e ▸ hbm)⟩
theorem groupCounts_fst_mem (m : List (List Char)) (x : List Char) :
    x ∈ (groupCounts m).map Prod.fst ↔ x ∈ m := by
  cases m with
  | nil => simp [groupCounts]
  | cons z t =>
    show x ∈ (groupCountsAux z 1 t).map Prod.fst ↔ _
    rw [groupCountsAux_mem_fst]
    simp

theorem groupCounts_counts (m : List (List Char))
    (hs : m.Pairwise (fun a b => lexLe a b = true)) :
    ∀ p ∈ groupCounts m, p.2 = m.count p.1 := by
  cases m with
  | nil => intro p hp; simp [groupCounts] at hp
  | cons z t =>
    intro p hp
    have h := groupCountsAux_counts t z 1 hs p hp
    by_cases hz : p.1 = z
    · rw [if_pos hz] at h
      rw [h, hz, List.count_cons_self]
      omega
    · rw [if_neg hz] at h
      rw [h, List.count_cons_of_ne hz]

theorem groupCounts_fst_pairwise (m : List (List Char))
    (hs : m.Pairwise (fun a b => lexLe a b = true)) :
    ((groupCounts m).map Prod.fst).Pairwise (fun a b => lexLe a b = true ∧ a ≠ b) := by
  cases m with
  | nil => simp [groupCounts]
  | cons z t => exact groupCountsAux_fst_pairwise t z 1 hs
theorem count_perm_eq {l1 l2 : List (List Char)} (h : l1.Perm l2) (a : List Char) :
    l1.count a = l2.count a :=
  h.countP_eq _

/-- C2: in flat mode the descriptor is "Gres=gpu:" with the total count for a
non-empty inventory and the empty string otherwise; in typed mode it is the
empty string for an empty inventory and otherwise "Gres=" before the
comma-join of one "gpu:name:count" token per group of the sorted inventory,
where the group names are strictly sorted (distinct, in lexicographic
order), are exactly the names of the inventory, and each carries the exact
multiplicity of its name; the two specification examples evaluate as
stated. -/
theorem claim_C2_gres_desc (gpus : List (List Char)) :
    (get_gres_desc false gpus =
      if gpus.length > 0 then ("Gres=gpu:").toList ++ intRepr (gpus.length : Int)
      else []) ∧
    (get_gres_desc true gpus =
      if gpus = [] then []
      else ("Gres=").toList ++ pyJoin [','] ((groupCounts (pySorted gpus)).map
        (fun g => ("gpu:").toList ++ g.1 ++ ':' :: intRepr (g.2 : Int)))) ∧
    ((groupCounts (pySorted gpus)).map Prod.fst).Pairwise
      (fun a b => lexLe a b = true ∧ a ≠ b) ∧
    (∀ x, x ∈ (groupCounts (pySorted gpus)).map Prod.fst ↔ x ∈ gpus) ∧
    (∀ p ∈ groupCounts (pySorted gpus), p.2 = gpus.count p.1) ∧
    get_gres_desc false [("TeslaV100").toList, ("TeslaV100").toList, ("TeslaP100").toList] =
      ("Gres=gpu:3").toList ∧
    get_gres_desc true [("TeslaV100").toList, ("TeslaV100").toList, ("TeslaP100").toList] =
      ("Gres=gpu:TeslaP100:1,gpu:TeslaV100:2").toList ∧
    get_gres_desc true [] = [] := by
  refine ⟨?_, ?_, ?_, ?_, ?_, by decide, by decide, rfl⟩
  · cases gpus with
    | nil => rfl
    | cons g gs =>
      have h1 : (g :: gs).length > 0 := Nat.succ_pos _
      rw [if_pos h1]
      simp only [get_gres_desc, Bool.false_eq_true, if_false, if_pos h1]
      rw [if_neg (by simp)]
      rfl
  · by_cases hg : gpus = []
    · subst hg; rfl
    · rw [if_neg hg]
      have hlen : (pySorted gpus).length = gpus.length := (pySorted_perm gpus).length_eq
      have hsne : pySorted gpus ≠ [] := by
        intro e
        rw [e] at hlen
        exact hg (List.eq_nil_of_length_eq_zero hlen.symm)
      obtain ⟨z, t, hzt⟩ := List.exists_cons_of_ne_nil hsne
      have hne : (groupCounts (pySorted gpus)).map
          (fun g => ("gpu:").toList ++ g.1 ++ ':' :: intRepr (g.2 : Int)) ≠ [] := by
        rw [hzt]
        show (groupCountsAux z 1 t).map _ ≠ []
        intro e
        exact groupCountsAux_ne_nil z 1 t (List.map_eq_nil_iff.mp e)
      simp only [get_gres_desc, if_true]
      rw [if_neg (fun e => hne (List.length_eq_zero.mp e))]
  · cases hzt : pySorted gpus with
    | nil => simp [groupCounts]
    | cons z t =>
      have hs := pySorted_pairwise gpus
      rw [hzt] at hs
      exact groupCountsAux_fst_pairwise t z 1 hs
  · intro x
    rw [groupCounts_fst_mem]
    exact (pySorted_perm gpus).mem_iff
  · intro p hp
    have hs := pySorted_pairwise gpus
    rw [groupCounts_counts (pySorted gpus) hs p hp]
    exact count_perm_eq (pySorted_perm gpus) p.1

/-- C2 witness: the multiplicity conjunct of the typed descriptor applied to
a concrete inventory in which B occurs twice. -/
theorem claim_C2_witness :
    ((("B").toList, 2) : List Char × Nat).2 =
      [("B").toList, ("A").toList, ("B").toList].count ((("B").toList, 2) : List Char × Nat).1 :=
  (claim_C2_gres_desc [("B").toList, ("A").toList, ("B").toList]).2.2.2.2.1
    ((("B").toList, 2)) (by decide)
theorem encode_wf : ∀ {l : TopoLine}, l.WF → l.encode ≠ [] ∧ '\n' ∉ l.encode
  | .comment s, h => by
    refine ⟨by simp [TopoLine.encode], ?_⟩
    simp only [TopoLine.encode, List.mem_cons]
    rintro (h' | h')
    · exact absurd h' (by decide)
    · exact h h'
  | .row a b c, h => by
    obtain ⟨⟨ha, hda⟩, ⟨hb, hdb⟩, ⟨hc, hdc⟩⟩ := h
    have hform : (TopoLine.row a b c).encode = a ++ (',' :: (b ++ (',' :: c))) := by
      simp [TopoLine.encode, List.append_assoc]
    refine ⟨?_, ?_⟩
    · rw [hform]
      intro e
      exact ha (List.append_eq_nil.mp e).1
    · rw [hform]
      simp only [List.mem_append, List.mem_cons, or_assoc]
      rintro (h' | h' | h' | h' | h')
      · exact absurd (hda _ h') (by decide)
      · exact absurd h' (by decide)
      · exact absurd (hdb _ h') (by decide)
      · exact absurd h' (by decide)
      · exact absurd (hdc _ h') (by decide)

theorem topo_filter_split : ∀ ls : List TopoLine, (∀ l ∈ ls, l.WF) →
    ((ls.map TopoLine.encode).filter
        (fun line => !pyStartsWith (("#").toList) line)).map (pySplit ',') =
      (topoRows ls).map (fun t => [t.1, t.2.1, t.2.2])
  | [], _ => rfl
  | .comment s :: ls', h => by
    have ih := topo_filter_split ls' (fun l m => h l (List.mem_cons_of_mem _ m))
    simp only [List.map_cons, TopoLine.encode, List.filter]
    rw [show (pyStartsWith (("#").toList) ('#' :: s)) = true from by
      simp [pyStartsWith, List.isPrefixOf]]
    show ((ls'.map TopoLine.encode).filter _).map (pySplit ',') = _
    rw [ih]
    rfl
  | .row a b c :: ls', h => by
    obtain ⟨⟨ha, hda⟩, ⟨hb, hdb⟩, ⟨hc, hdc⟩⟩ := h _ (List.mem_cons_self _ _)
    have ih := topo_filter_split ls' (fun l m => h l (List.mem_cons_of_mem _ m))
    obtain ⟨a0, a', rfl⟩ := List.exists_cons_of_ne_nil ha
    simp only [List.map_cons, TopoLine.encode, List.filter]
    have hdig : a0.isDigit = true := hda a0 (List.mem_cons_self _ _)
    have hhash : ('#' : Char) ≠ a0 :=
      Ne.symm (ne_of_isDigit hdig (show ('#' : Char).isDigit = false from by decide))
    rw [show (pyStartsWith (("#").toList) ((a0 :: a') ++ ',' :: b ++ ',' :: c)) = false from by
      simp [pyStartsWith, List.cons_append, List.isPrefixOf, hhash]]
    show (pySplit ',' ((a0 :: a') ++ ',' :: b ++ ',' :: c)) ::
      ((ls'.map TopoLine.encode).filter _).map (pySplit ',') = _
    rw [ih]
    have hsplit : pySplit ',' ((a0 :: a') ++ ',' :: b ++ ',' :: c) = [a0 :: a', b, c] := by
      have h1 : ((a0 :: a') ++ ',' :: b ++ ',' :: c) =
          (a0 :: a') ++ ',' :: (b ++ ',' :: c) := by
        simp [List.append_assoc]
      rw [h1, pySplit_append _ (fun m => absurd (hda _ m) (by decide)),
        pySplit_append _ (fun m => absurd (hdb _ m) (by decide)),
        pySplit_of_not_mem (fun m => absurd (hdc _ m) (by decide))]
    rw [hsplit]
    rfl
theorem cpuRows_encodeTopo (ls : List TopoLine) (hwf : ∀ l ∈ ls, l.WF)
    (hne : ls ≠ []) :
    cpuRows (encodeTopo ls) = (topoRows ls).map (fun t => [t.1, t.2.1, t.2.2]) := by
  unfold cpuRows encodeTopo
  rw [pySplitlines_join (by simpa using hne)
    (fun l m => by
      obtain ⟨l0, hl0, rfl⟩ := List.mem_map.mp m
      exact (encode_wf (hwf l0 hl0)).2)
    (fun e => by
      have hm : ([] : List Char) ∈ ls.map TopoLine.encode := List.mem_of_mem_getLast? e
      obtain ⟨l0, hl0, he⟩ := List.mem_map.mp hm
      exact (encode_wf (hwf l0 hl0)).1 he)]
  exact topo_filter_split ls hwf

theorem parseCol_rows (col : Nat) (sel : (List Char × List Char × List Char) → List Char)
    (hcol : ∀ t : List Char × List Char × List Char,
      [t.1, t.2.1, t.2.2].get? col = some (sel t)) :
    ∀ ts : List (List Char × List Char × List Char),
      (∀ t ∈ ts, sel t ≠ [] ∧ ∀ c ∈ sel t, c.isDigit = true) →
      parseCol col (ts.map (fun t => [t.1, t.2.1, t.2.2])) =
        .ok (ts.map (fun t => (digitsToNat (sel t) : Int)))
  | [], _ => rfl
  | t :: ts', h => by
    obtain ⟨hne, hdig⟩ := h t (List.mem_cons_self _ _)
    have ih := parseCol_rows col sel hcol ts'
      (fun x m => h x (List.mem_cons_of_mem _ m))
    simp only [List.map_cons, parseCol]
    rw [hcol t]
    simp only [pyInt_digits hne hdig, ih]
/-- C6: on a well-formed topology text (non-comment rows of three nonempty
digit fields, comment rows starting with a hash ignored) with at least one
data row, the extractor reports each count as the maximum of the respective
column plus one; a failed probe, an empty text, and texts on which any
column extraction raises (missing column, unparseable field, or no rows at
all) yield exactly one cpu, one core, one socket. -/
theorem claim_C6_cpu_info :
    (∀ (ls : List TopoLine) (v : Int × Int × Int) (vs : List (Int × Int × Int)),
      (∀ l ∈ ls, l.WF) → topoVals ls = v :: vs →
      get_cpu_info (some (encodeTopo ls)) =
        ⟨listMax v.1 (vs.map (fun t => t.1)) + 1,
         listMax v.2.1 (vs.map (fun t => t.2.1)) + 1,
         listMax v.2.2 (vs.map (fun t => t.2.2)) + 1⟩) ∧
    get_cpu_info none = ⟨1, 1, 1⟩ ∧
    get_cpu_info (some []) = ⟨1, 1, 1⟩ ∧
    (∀ text : List Char,
      max_in_col (cpuRows text) 0 = .error () ∨ max_in_col (cpuRows text) 1 = .error () ∨
        max_in_col (cpuRows text) 2 = .error () →
      get_cpu_info (some text) = ⟨1, 1, 1⟩) ∧
    get_cpu_info (some (("0,0\n1,1").toList)) = ⟨1, 1, 1⟩ ∧
    get_cpu_info (some (("a,b,c").toList)) = ⟨1, 1, 1⟩ := by
  refine ⟨?_, rfl, by decide, ?_, by decide, by decide⟩
  · intro ls v vs hwf hvals
    have hrowsne : topoRows ls ≠ [] := by
      intro e
      rw [topoVals, e] at hvals
      exact List.cons_ne_nil _ _ hvals.symm
    have hlsne : ls ≠ [] := by
      intro e
      subst e
      exact hrowsne rfl
    have hfield : ∀ x ∈ topoRows ls,
        (x.1 ≠ [] ∧ ∀ c ∈ x.1, c.isDigit = true) ∧
        (x.2.1 ≠ [] ∧ ∀ c ∈ x.2.1, c.isDigit = true) ∧
        (x.2.2 ≠ [] ∧ ∀ c ∈ x.2.2, c.isDigit = true) := by
      intro x hx
      obtain ⟨l0, hl0, hx0⟩ := List.mem_filterMap.mp hx
      cases l0 with
      | comment s => exact absurd hx0 (by simp [TopoLine.rowFields])
      | row a b c =>
        simp only [TopoLine.rowFields, Option.some.injEq] at hx0
        subst hx0
        exact hwf _ hl0
    obtain ⟨t, ts', hts⟩ := List.exists_cons_of_ne_nil hrowsne
    have h0 := parseCol_rows 0 (fun t => t.1) (fun _ => rfl) (topoRows ls)
      (fun x m => (hfield x m).1)
    have h1 := parseCol_rows 1 (fun t => t.2.1) (fun _ => rfl) (topoRows ls)
      (fun x m => (hfield x m).2.1)
    have h2 := parseCol_rows 2 (fun t => t.2.2) (fun _ => rfl) (topoRows ls)
      (fun x m => (hfield x m).2.2)
    have hvals2 : topoVals ls =
        ((digitsToNat t.1 : Int), (digitsToNat t.2.1 : Int), (digitsToNat t.2.2 : Int)) ::
          ts'.map (fun x =>
            ((digitsToNat x.1 : Int), (digitsToNat x.2.1 : Int), (digitsToNat x.2.2 : Int))) := by
      rw [topoVals, hts, List.map_cons]
    rw [hvals2] at hvals
    injection hvals with hv hvs
    subst hv
    subst hvs
    simp only [get_cpu_info]
    rw [cpuRows_encodeTopo ls hwf hlsne]
    unfold max_in_col
    rw [h0, h1, h2, hts]
    simp only [List.map_cons, List.map_map]
    rfl
  · intro text h
    simp only [get_cpu_info]
    rcases h with h | h | h
    · rw [h]
    · cases h0 : max_in_col (cpuRows text) 0 with
      | error e => rfl
      | ok a => rw [h]
    · cases h0 : max_in_col (cpuRows text) 0 with
      | error e => rfl
      | ok a =>
        cases h1 : max_in_col (cpuRows text) 1 with
        | error e => rfl
        | ok b => rw [h]

/-- C6 witness: four data rows and a comment, giving four cpus, two cores,
one socket. -/
theorem claim_C6_witness :
    get_cpu_info (some (encodeTopo
      [TopoLine.comment ((" comment").toList),
       TopoLine.row (("0").toList) (("0").toList) (("0").toList),
       TopoLine.row (("1").toList) (("0").toList) (("0").toList),
       TopoLine.row (("2").toList) (("1").toList) (("0").toList),
       TopoLine.row (("3").toList) (("1").toList) (("0").toList)])) = ⟨4, 2, 1⟩ := by
  rw [claim_C6_cpu_info.1 _ ((0 : Int), (0 : Int), (0 : Int))
    [((1 : Int), (0 : Int), (0 : Int)), ((2 : Int), (1 : Int), (0 : Int)),
     ((3 : Int), (1 : Int), (0 : Int))]
    (by
      intro l hl
      simp only [List.mem_cons, List.not_mem_nil, or_false] at hl
      rcases hl with rfl | rfl | rfl | rfl | rfl
      · exact (by decide : ('\n' : Char) ∉ ((" comment").toList))
      · exact ⟨⟨by decide, by decide⟩, ⟨by decide, by decide⟩, by decide, by decide⟩
      · exact ⟨⟨by decide, by decide⟩, ⟨by decide, by decide⟩, by decide, by decide⟩
      · exact ⟨⟨by decide, by decide⟩, ⟨by decide, by decide⟩, by decide, by decide⟩
      · exact ⟨⟨by decide, by decide⟩, ⟨by decide, by decide⟩, by decide, by decide⟩)
    (by decide)]
  decide
